import Mathlib

/-!
Verification of the real-time collaboration core of the collab-notes
repository (backend/src/socket/index.ts), as a shallow embedding.

The socket handler keeps one piece of shared mutable state,
`roomPresence : Map<noteId, Map<socketId, PresenceUser>>`, plus the
external document store accessed through prisma.  We embed JavaScript
`Map`s as association lists with `Map` update semantics (`set` replaces
the first binding in place, `delete` removes the first binding, `get`
returns the first binding); a real JS `Map` never holds two bindings for
one key, so on every state the code can build these operations agree
with it.

Event handlers are embedded as pure functions from a server state to a
new server state plus a list of emissions.  `socket.emit` targets the
caller only; `io.to(noteId).emit` delivers to the sockets currently in
the Socket.IO room `noteId`.  The handlers keep Socket.IO room
membership and `roomPresence` membership identical (`socket.join` /
`socket.leave` are called exactly where the presence map is updated,
and a disconnecting socket is purged from both), so a room broadcast is
resolved to the member list of `roomPresence.get(noteId)` at the moment
of the `emit` call.
-/

namespace CollabNotes

/-- JS `Map.prototype.get`: the value of the first binding of `k`. -/
def mapGet {α : Type} : List (String × α) → String → Option α
  | [], _ => none
  | p :: rest, k => if p.1 = k then some p.2 else mapGet rest k

/-- JS `Map.prototype.has`. -/
def mapHas {α : Type} (m : List (String × α)) (k : String) : Bool :=
  (mapGet m k).isSome

/-- JS `Map.prototype.set`: replace the binding of `k` in place if it
exists, otherwise append a new binding (insertion order preserved). -/
def mapSet {α : Type} : List (String × α) → String → α → List (String × α)
  | [], k, v => [(k, v)]
  | p :: rest, k, v => if p.1 = k then (k, v) :: rest else p :: mapSet rest k v

/-- JS `Map.prototype.delete`: remove the binding of `k` if present. -/
def mapDelete {α : Type} : List (String × α) → String → List (String × α)
  | [], _ => []
  | p :: rest, k => if p.1 = k then rest else p :: mapDelete rest k

/-- `interface PresenceUser` (socket/index.ts:23-27): the per-member
record stored in `roomPresence` and sent in presence snapshots.  The
field really is named `odId` in the source (backend and frontend agree
on that name); it holds the member's user id. -/
structure PresenceUser where
  odId : String
  name : String
  email : String
deriving DecidableEq, Repr

/-- The user identity attached to an authenticated socket
(`socket.user : JwtPayload & { name: string }`). -/
structure SessionUser where
  userId : String
  email : String
  name : String
deriving DecidableEq, Repr

/-- An authenticated connection: `socket.id` plus `socket.user`. -/
structure Session where
  socketId : String
  user : SessionUser
deriving DecidableEq, Repr

/-- A document row as the handlers see it: `{ ownerId, title, content }`. -/
structure NoteRec where
  ownerId : String
  title : String
  content : String
deriving DecidableEq, Repr

/-- Server state: the in-memory presence registry
(`roomPresence : Map noteId (Map socketId PresenceUser)`) and the
document store reached through prisma. -/
structure ServerState where
  roomPresence : List (String × List (String × PresenceUser))
  notes : String → Option NoteRec

/-- Where an emission is delivered: `socket.emit` reaches the caller
only, `io.to(noteId).emit` reaches the sockets in the room at the time
of the call.  We record the resolved list of recipient socket ids. -/
abbrev Recipients := List String

/-- The payloads the collaboration handlers emit. -/
inductive Payload where
  | errorMsg (message : String)
  | presenceUpdate (users : List PresenceUser)
  | noteUpdated (content : String) (title : Option String) (updatedBy : String)
deriving DecidableEq, Repr

abbrev Emit := Recipients × Payload

/-- The wire form of one element of a `presence-update` payload: the
object literal `{ odId, name, email }` built at socket/index.ts:102-106
is serialized with exactly its field names as keys. -/
def presenceUserPairs (u : PresenceUser) : List (String × String) :=
  [("odId", u.odId), ("name", u.name), ("email", u.email)]

/-- `join-note` handler (socket/index.ts:79-113): verify the note
exists (else `error` to the caller), join the Socket.IO room, register
the presence entry, broadcast the full snapshot to the room. -/
def joinNote (σ : ServerState) (s : Session) (noteId : String) :
    ServerState × List Emit :=
  match σ.notes noteId with
  | none => (σ, [([s.socketId], .errorMsg "Note not found")])
  | some _ =>
    let room0 := (mapGet σ.roomPresence noteId).getD []
    let room := mapSet room0 s.socketId
      ⟨s.user.userId, s.user.name, s.user.email⟩
    let rp := mapSet σ.roomPresence noteId room
    ({ σ with roomPresence := rp },
     [(room.map Prod.fst, .presenceUpdate (room.map Prod.snd))])

/-- `handleLeaveNote` (socket/index.ts:182-200): leave the Socket.IO
room, drop the presence entry, delete the room if now empty, otherwise
broadcast the updated snapshot to the remaining members. -/
def handleLeaveNote (σ : ServerState) (s : Session) (noteId : String) :
    ServerState × List Emit :=
  match mapGet σ.roomPresence noteId with
  | none => (σ, [])
  | some room0 =>
    let room := mapDelete room0 s.socketId
    if room.length = 0 then
      ({ σ with roomPresence := mapDelete σ.roomPresence noteId }, [])
    else
      ({ σ with roomPresence := mapSet σ.roomPresence noteId room },
       [(room.map Prod.fst, .presenceUpdate (room.map Prod.snd))])

/-- `note-update` handler (socket/index.ts:123-162): not-found and
ownership checks emit `error` to the caller; otherwise persist
`content` (and `title` when provided) and broadcast `note-updated` to
the room.  `persistOk` models whether the awaited `prisma.note.update`
call succeeds; when it rejects, the handler has no try/catch, so the
rest of the function (the broadcast) never runs and nothing is emitted. -/
def noteUpdate (σ : ServerState) (s : Session) (noteId content : String)
    (title : Option String) (persistOk : Bool) : ServerState × List Emit :=
  match σ.notes noteId with
  | none => (σ, [([s.socketId], .errorMsg "Note not found")])
  | some note =>
    if note.ownerId ≠ s.user.userId then
      (σ, [([s.socketId], .errorMsg "Only the owner can edit this note")])
    else if persistOk then
      let note' : NoteRec :=
        { note with content := content, title := title.getD note.title }
      let members := (mapGet σ.roomPresence noteId).getD []
      ({ σ with notes := fun id => if id = noteId then some note' else σ.notes id },
       [(members.map Prod.fst, .noteUpdated content title s.user.name)])
    else
      (σ, [])

/-- `disconnect` handler (socket/index.ts:166-175): for every room
currently holding this socket, run `handleLeaveNote`.  The JS code
iterates `roomPresence.forEach` and calls `handleLeaveNote` on the
rooms containing `socket.id`; since `handleLeaveNote` for one key never
touches the other keys, iterating over the up-front list of such rooms
is the same computation. -/
def disconnect (σ : ServerState) (s : Session) : ServerState × List Emit :=
  let keys := (σ.roomPresence.filter (fun p => mapHas p.2 s.socketId)).map Prod.fst
  keys.foldl
    (fun acc noteId =>
      let r := handleLeaveNote acc.1 s noteId
      (r.1, acc.2 ++ r.2))
    (σ, [])

/-- The closed set of inbound events the collaboration core processes. -/
inductive Event where
  | join (s : Session) (noteId : String)
  | leave (s : Session) (noteId : String)
  | update (s : Session) (noteId content : String) (title : Option String)
      (persistOk : Bool)
  | discon (s : Session)

/-- One event processed to completion. -/
def step (σ : ServerState) (e : Event) : ServerState × List Emit :=
  match e with
  | .join s noteId => joinNote σ s noteId
  | .leave s noteId => handleLeaveNote σ s noteId
  | .update s noteId content title persistOk =>
      noteUpdate σ s noteId content title persistOk
  | .discon s => disconnect σ s

/-- Run a sequence of events, keeping only the final state. -/
def run (σ : ServerState) : List Event → ServerState
  | [] => σ
  | e :: es => run (step σ e).1 es

/-! ### Properties of the embedded `Map` operations -/

theorem mapGet_mapSet {α : Type} (m : List (String × α)) (k k' : String) (v : α) :
    mapGet (mapSet m k v) k' = if k' = k then some v else mapGet m k' := by
  induction m with
  | nil =>
    by_cases h : k' = k
    · simp [mapSet, mapGet, h]
    · simp [mapSet, mapGet, h, Ne.symm h]
  | cons p rest ih =>
    obtain ⟨a, b⟩ := p
    by_cases hak : a = k
    · by_cases hk' : k' = k
      · simp [mapSet, mapGet, hak, hk']
      · simp [mapSet, mapGet, hak, hk', Ne.symm hk']
    · by_cases hak' : a = k'
      · have hk'k : ¬ k' = k := fun h => hak (hak'.trans h)
        simp [mapSet, mapGet, hak, hak', hk'k]
      · simp [mapSet, mapGet, hak, hak', ih]

theorem mapHas_mapSet {α : Type} (m : List (String × α)) (k k' : String) (v : α) :
    mapHas (mapSet m k v) k' = true ↔ (k' = k ∨ mapHas m k' = true) := by
  by_cases h : k' = k <;> simp [mapHas, mapGet_mapSet, h]

theorem mapGet_mapDelete_ne {α : Type} (m : List (String × α)) {k k' : String}
    (h : k' ≠ k) : mapGet (mapDelete m k) k' = mapGet m k' := by
  induction m with
  | nil => simp [mapDelete]
  | cons p rest ih =>
    obtain ⟨a, b⟩ := p
    by_cases hak : a = k
    · have hkk' : ¬ k = k' := fun hh => h hh.symm
      simp [mapDelete, mapGet, hak, hkk']
    · by_cases hak' : a = k' <;> simp [mapDelete, mapGet, hak, hak', h, ih]

theorem mapGet_isSome_iff_mem_keys {α : Type} (m : List (String × α)) (k : String) :
    (mapGet m k).isSome = true ↔ k ∈ m.map Prod.fst := by
  induction m with
  | nil => simp [mapGet]
  | cons p rest ih =>
    obtain ⟨a, b⟩ := p
    by_cases hak : a = k
    · simp [mapGet, hak]
    · have hka : ¬ k = a := fun hh => hak hh.symm
      simp [mapGet, hak, hka, ih]

theorem mapGet_eq_none_of_not_mem_keys {α : Type} {m : List (String × α)}
    {k : String} (h : k ∉ m.map Prod.fst) : mapGet m k = none := by
  cases hg : mapGet m k with
  | none => rfl
  | some v =>
    exact absurd ((mapGet_isSome_iff_mem_keys m k).mp (by simp [hg])) h

theorem mapGet_mem {α : Type} {m : List (String × α)} {k : String} {v : α}
    (h : mapGet m k = some v) : (k, v) ∈ m := by
  induction m with
  | nil => simp [mapGet] at h
  | cons p rest ih =>
    obtain ⟨a, b⟩ := p
    by_cases hak : a = k
    · simp [mapGet, hak] at h
      rw [← hak, ← h]
      exact List.mem_cons_self (a, b) rest
    · simp [mapGet, hak] at h
      exact List.mem_cons_of_mem (a, b) (ih h)

theorem mem_mapDelete {α : Type} {m : List (String × α)} {k : String}
    {p : String × α} (h : p ∈ mapDelete m k) : p ∈ m := by
  induction m with
  | nil => simp [mapDelete] at h
  | cons q rest ih =>
    by_cases hqk : q.1 = k
    · simp only [mapDelete, if_pos hqk] at h
      exact List.mem_cons_of_mem q h
    · simp only [mapDelete, if_neg hqk] at h
      rcases List.mem_cons.mp h with h' | h'
      · rw [h']; exact List.mem_cons_self q rest
      · exact List.mem_cons_of_mem q (ih h')

theorem mem_keys_mapDelete {α : Type} {m : List (String × α)} {k k' : String}
    (h : k' ∈ (mapDelete m k).map Prod.fst) : k' ∈ m.map Prod.fst := by
  simp only [List.mem_map] at h ⊢
  obtain ⟨p, hp, hfst⟩ := h
  exact ⟨p, mem_mapDelete hp, hfst⟩

theorem mapDelete_of_not_has {α : Type} {m : List (String × α)} {k : String}
    (h : mapGet m k = none) : mapDelete m k = m := by
  induction m with
  | nil => simp [mapDelete]
  | cons p rest ih =>
    obtain ⟨a, b⟩ := p
    by_cases hak : a = k
    · simp [mapGet, hak] at h
    · simp [mapGet, hak] at h
      simp [mapDelete, hak, ih h]

theorem mapGet_mapDelete_self {α : Type} {m : List (String × α)} {k : String}
    (hnd : (m.map Prod.fst).Nodup) : mapGet (mapDelete m k) k = none := by
  induction m with
  | nil => simp [mapDelete, mapGet]
  | cons p rest ih =>
    obtain ⟨a, b⟩ := p
    simp only [List.map_cons, List.nodup_cons] at hnd
    by_cases hak : a = k
    · simp only [mapDelete, if_pos (show ((a, b) : String × α).1 = k from hak)]
      exact mapGet_eq_none_of_not_mem_keys (by rw [← hak]; exact hnd.1)
    · simp [mapDelete, mapGet, hak, ih hnd.2]

theorem mapSet_of_get_eq {α : Type} {m : List (String × α)} {k : String} {v : α}
    (h : mapGet m k = some v) : mapSet m k v = m := by
  induction m with
  | nil => simp [mapGet] at h
  | cons p rest ih =>
    obtain ⟨a, b⟩ := p
    by_cases hak : a = k
    · simp [mapGet, hak] at h
      simp [mapSet, hak, h]
    · simp [mapGet, hak] at h
      simp [mapSet, hak, ih h]

theorem mapSet_mapSet_same {α : Type} (m : List (String × α)) (k : String) (v : α) :
    mapSet (mapSet m k v) k v = mapSet m k v := by
  induction m with
  | nil => simp [mapSet]
  | cons p rest ih =>
    by_cases hpk : p.1 = k <;> simp [mapSet, hpk, ih]

theorem mem_mapSet {α : Type} {m : List (String × α)} {k : String} {v : α}
    {p : String × α} (h : p ∈ mapSet m k v) : p ∈ m ∨ p = (k, v) := by
  induction m with
  | nil =>
    simp [mapSet] at h
    right; exact h
  | cons q rest ih =>
    by_cases hqk : q.1 = k
    · simp only [mapSet, if_pos hqk] at h
      rcases List.mem_cons.mp h with h' | h'
      · right; exact h'
      · left; exact List.mem_cons_of_mem q h'
    · simp only [mapSet, if_neg hqk] at h
      rcases List.mem_cons.mp h with h' | h'
      · left; rw [h']; exact List.mem_cons_self q rest
      · rcases ih h' with h'' | h''
        · left; exact List.mem_cons_of_mem q h''
        · right; exact h''

theorem mapSet_ne_nil {α : Type} (m : List (String × α)) (k : String) (v : α) :
    mapSet m k v ≠ [] := by
  cases m with
  | nil => simp [mapSet]
  | cons p rest => by_cases hpk : p.1 = k <;> simp [mapSet, hpk]

theorem mem_keys_mapSet {α : Type} {m : List (String × α)} {k k' : String}
    {v : α} (h : k' ∈ (mapSet m k v).map Prod.fst) :
    k' ∈ m.map Prod.fst ∨ k' = k := by
  simp only [List.mem_map] at h
  obtain ⟨p, hp, hfst⟩ := h
  rcases mem_mapSet hp with h' | h'
  · left; exact List.mem_map.mpr ⟨p, h', hfst⟩
  · right; rw [← hfst, h']

theorem nodup_keys_mapSet {α : Type} {m : List (String × α)} (k : String)
    (v : α) (hnd : (m.map Prod.fst).Nodup) :
    ((mapSet m k v).map Prod.fst).Nodup := by
  induction m with
  | nil => simp [mapSet]
  | cons p rest ih =>
    simp only [List.map_cons, List.nodup_cons] at hnd
    by_cases hpk : p.1 = k
    · simp only [mapSet, if_pos hpk, List.map_cons, List.nodup_cons]
      refine ⟨?_, hnd.2⟩
      rw [← hpk]; exact hnd.1
    · simp only [mapSet, if_neg hpk, List.map_cons, List.nodup_cons]
      refine ⟨fun hmem => ?_, ih hnd.2⟩
      rcases mem_keys_mapSet hmem with h' | h'
      · exact hnd.1 h'
      · exact hpk h'

theorem nodup_keys_mapDelete {α : Type} {m : List (String × α)} (k : String)
    (hnd : (m.map Prod.fst).Nodup) : ((mapDelete m k).map Prod.fst).Nodup := by
  induction m with
  | nil => simp [mapDelete]
  | cons p rest ih =>
    simp only [List.map_cons, List.nodup_cons] at hnd
    by_cases hpk : p.1 = k
    · simp only [mapDelete, if_pos hpk]
      exact hnd.2
    · simp only [mapDelete, if_neg hpk, List.map_cons, List.nodup_cons]
      exact ⟨fun hmem => hnd.1 (mem_keys_mapDelete hmem), ih hnd.2⟩

theorem mapDelete_eq_nil {α : Type} {m : List (String × α)} {k : String}
    (h : mapDelete m k = []) : m = [] ∨ ∃ v, m = [(k, v)] := by
  cases m with
  | nil => left; rfl
  | cons p rest =>
    obtain ⟨a, b⟩ := p
    by_cases hak : a = k
    · simp [mapDelete, hak] at h
      right; exact ⟨b, by rw [h, hak]⟩
    · simp [mapDelete, hak] at h

/-! ### Concrete fixtures used by witnesses and counterexamples -/

/-- User A, the owner of note `n1` in the fixtures. -/
def userA : SessionUser := ⟨"uA", "a@example.com", "Alice"⟩

/-- User B, a non-owner. -/
def userB : SessionUser := ⟨"uB", "b@example.com", "Bob"⟩

/-- A's connection. -/
def sessA : Session := ⟨"sockA", userA⟩

/-- B's connection. -/
def sessB : Session := ⟨"sockB", userB⟩

/-- The fixture document `n1`, owned by user A. -/
def noteN1 : NoteRec := ⟨"uA", "title1", "content1"⟩

/-- A document store holding exactly `n1`. -/
def notes1 : String → Option NoteRec := fun id => if id = "n1" then some noteN1 else none

/-- B's presence entry as `join-note` would store it. -/
def presB : PresenceUser := ⟨"uB", "Bob", "b@example.com"⟩

/-- State with note `n1` and an empty presence registry. -/
def stateEmpty : ServerState := ⟨[], notes1⟩

/-- State with note `n1` whose room holds only B's session. -/
def stateB : ServerState := ⟨[("n1", [("sockB", presB)])], notes1⟩

/-- A's presence entry as `join-note` would store it. -/
def presA : PresenceUser := ⟨"uA", "Alice", "a@example.com"⟩

/-- State with note `n1` whose room holds A's and B's sessions. -/
def stateAB : ServerState := ⟨[("n1", [("sockA", presA), ("sockB", presB)])], notes1⟩

/-! ### Claim theorems -/

/-- C1: a `note-update` for a document owned by A, sent from an
authenticated session B with a different userId, leaves the whole
server state (stored content and title included) unchanged and emits
exactly one `error` event, delivered to B's socket only — in
particular no `note-updated` broadcast is emitted to anyone. -/
theorem noteUpdate_nonOwner_rejected (σ : ServerState) (s : Session)
    (noteId content : String) (title : Option String) (persistOk : Bool)
    (note : NoteRec) (hnote : σ.notes noteId = some note)
    (hown : note.ownerId ≠ s.user.userId) :
    noteUpdate σ s noteId content title persistOk =
      (σ, [([s.socketId], .errorMsg "Only the owner can edit this note")]) := by
  simp [noteUpdate, hnote, hown]

/-- Witness for C1: B (not the owner) updating `n1` is rejected with a
single error event to B's socket, and the state is untouched. -/
theorem noteUpdate_nonOwner_rejected_witness :
    noteUpdate stateEmpty sessB "n1" "new content" none true =
      (stateEmpty, [(["sockB"], .errorMsg "Only the owner can edit this note")]) :=
  noteUpdate_nonOwner_rejected stateEmpty sessB "n1" "new content" none true
    noteN1 rfl (by decide)

/-- C4: when the owner's `note-update` reaches the persistence call and
that call fails, the handler's awaited rejection aborts the rest of the
function: no `note-updated` broadcast is emitted (as the claim says),
but — the handler having no try/catch — no `error` event is emitted to
the caller either; the failure is silently dropped.  The claim's
"an error event is emitted to B" part is the spec's stated intent and
the missing catch is the code's slip. -/
theorem noteUpdate_persistFailure_silent (σ : ServerState) (s : Session)
    (noteId content : String) (title : Option String) (note : NoteRec)
    (hnote : σ.notes noteId = some note)
    (hown : note.ownerId = s.user.userId) :
    noteUpdate σ s noteId content title false = (σ, []) := by
  simp [noteUpdate, hnote, hown]

/-- Witness for C4: the owner's failing update on `n1` emits nothing at
all — broadcast suppressed, and no error event either. -/
theorem noteUpdate_persistFailure_silent_witness :
    noteUpdate stateB sessA "n1" "new content" none false = (stateB, []) :=
  noteUpdate_persistFailure_silent stateB sessA "n1" "new content" none
    noteN1 rfl rfl

/-- C9: the `note-update` handler checks only existence and ownership,
never room membership: an owner session that is not in the document's
room (has never joined it, or has left it) still gets its update
persisted, and the `note-updated` broadcast still goes out to the
room's current members. -/
theorem noteUpdate_no_membership_precondition (σ : ServerState) (s : Session)
    (noteId content : String) (title : Option String) (note : NoteRec)
    (hnote : σ.notes noteId = some note)
    (hown : note.ownerId = s.user.userId)
    (_hnotmem : mapHas ((mapGet σ.roomPresence noteId).getD []) s.socketId = false) :
    noteUpdate σ s noteId content title true =
      ({ σ with notes := fun id =>
          if id = noteId then
            some { note with content := content, title := title.getD note.title }
          else σ.notes id },
       [(((mapGet σ.roomPresence noteId).getD []).map Prod.fst,
         .noteUpdated content title s.user.name)]) := by
  simp [noteUpdate, hnote, hown]

/-- Witness for C9: A owns `n1` but is not in its room (only B is);
A's update is persisted and `note-updated` goes to B's socket. -/
theorem noteUpdate_no_membership_precondition_witness :
    noteUpdate stateB sessA "n1" "new content" none true =
      ({ stateB with notes := fun id =>
          if id = "n1" then some { noteN1 with content := "new content", title := (none : Option String).getD noteN1.title }
          else stateB.notes id },
       [(["sockB"], .noteUpdated "new content" none "Alice")]) := by
  have h := noteUpdate_no_membership_precondition stateB sessA "n1" "new content"
    none noteN1 rfl rfl (by decide)
  simpa [stateB, sessA, userA, presB] using h

/-- C8 counterexample: the claim quantifies over every owner update
with no room-membership condition, but the broadcast goes to
`io.to(noteId)`, the sockets currently in the room.  Here A owns `n1`
and is not in its room (only B is): A's successful update broadcasts
`note-updated` to B's socket only, and A's own socket is not among the
recipients. -/
theorem noteUpdated_echo_counterexample :
    (noteUpdate stateB sessA "n1" "X" none true).2 =
      [(["sockB"], .noteUpdated "X" none "Alice")] ∧
    sessA.socketId ∉ (["sockB"] : List String) :=
  ⟨rfl, by decide⟩

/-- C8 amended: when the owner's session is a member of the document's
room (the normal situation after it joined), a successful owner update
broadcasts `note-updated` to exactly the room's member sockets, a list
that includes the owner's own socket — the echo is not suppressed. -/
theorem noteUpdated_echo_when_member (σ : ServerState) (s : Session)
    (noteId content : String) (title : Option String) (note : NoteRec)
    (room : List (String × PresenceUser))
    (hnote : σ.notes noteId = some note)
    (hown : note.ownerId = s.user.userId)
    (hroom : mapGet σ.roomPresence noteId = some room)
    (hmem : mapHas room s.socketId = true) :
    (noteUpdate σ s noteId content title true).2 =
      [(room.map Prod.fst, .noteUpdated content title s.user.name)] ∧
    s.socketId ∈ room.map Prod.fst := by
  constructor
  · simp [noteUpdate, hnote, hown, hroom]
  · exact (mapGet_isSome_iff_mem_keys room s.socketId).mp
      (by simpa [mapHas] using hmem)

/-- Witness for amended C8: A, a member of `n1`'s room alongside B,
updates successfully; the broadcast recipients are A's and B's sockets. -/
theorem noteUpdated_echo_when_member_witness :
    (noteUpdate stateAB sessA "n1" "X" none true).2 =
      [(["sockA", "sockB"], .noteUpdated "X" none "Alice")] ∧
    "sockA" ∈ (["sockA", "sockB"] : List String) := by
  have h := noteUpdated_echo_when_member stateAB sessA "n1" "X" none noteN1
    [("sockA", presA), ("sockB", presB)] rfl rfl rfl (by decide)
  simpa [sessA, userA] using h

/-- C6: joining the same (session, existing document) pair twice is
idempotent: the state after the second `join-note` equals the state
after the first, and the room holds exactly one presence entry keyed by
that session's socket, namely the one the first join stored. -/
theorem joinNote_idempotent (σ : ServerState) (s : Session) (noteId : String)
    (note : NoteRec) (hnote : σ.notes noteId = some note)
    (hnd : ∀ p ∈ σ.roomPresence, (p.2.map Prod.fst).Nodup) :
    (joinNote (joinNote σ s noteId).1 s noteId).1 = (joinNote σ s noteId).1 ∧
    ∃ room, mapGet (joinNote σ s noteId).1.roomPresence noteId = some room ∧
      mapGet room s.socketId = some ⟨s.user.userId, s.user.name, s.user.email⟩ ∧
      List.count s.socketId (room.map Prod.fst) = 1 := by
  have hroom0nd : (((mapGet σ.roomPresence noteId).getD []).map Prod.fst).Nodup := by
    cases hg : mapGet σ.roomPresence noteId with
    | none => simp
    | some r =>
      simpa using hnd (noteId, r) (mapGet_mem hg)
  constructor
  · simp only [joinNote, hnote]
    simp [mapGet_mapSet]
    rw [mapSet_mapSet_same, mapSet_mapSet_same]
  · refine ⟨mapSet ((mapGet σ.roomPresence noteId).getD []) s.socketId
      ⟨s.user.userId, s.user.name, s.user.email⟩, ?_, ?_, ?_⟩
    · simp [joinNote, hnote, mapGet_mapSet]
    · simp [mapGet_mapSet]
    · have hndkeys := nodup_keys_mapSet s.socketId
        (⟨s.user.userId, s.user.name, s.user.email⟩ : PresenceUser) hroom0nd
      have hmem : s.socketId ∈
          ((mapSet ((mapGet σ.roomPresence noteId).getD []) s.socketId
            ⟨s.user.userId, s.user.name, s.user.email⟩).map Prod.fst) := by
        refine (mapGet_isSome_iff_mem_keys _ _).mp ?_
        simp [mapGet_mapSet]
      exact List.count_eq_one_of_mem hndkeys hmem

/-- Witness for C6: B joins `n1` twice from the empty registry; the
second join leaves the state of the first unchanged and the room holds
exactly one entry for B's socket. -/
theorem joinNote_idempotent_witness :
    (joinNote (joinNote stateEmpty sessB "n1").1 sessB "n1").1 =
      (joinNote stateEmpty sessB "n1").1 ∧
    ∃ room, mapGet (joinNote stateEmpty sessB "n1").1.roomPresence "n1" = some room ∧
      mapGet room sessB.socketId =
        some ⟨sessB.user.userId, sessB.user.name, sessB.user.email⟩ ∧
      List.count sessB.socketId (room.map Prod.fst) = 1 :=
  joinNote_idempotent stateEmpty sessB "n1" noteN1 rfl
    (by intro p hp; simp [stateEmpty] at hp)

/-- C5 counterexample: the serialized element of a concrete
`presence-update` payload (B joining `n1`) carries its user id under
the key `odId` — the source's `PresenceUser` field name — and has no
`userId` key at all, so the payload shape is not
`{users: [{userId, name, email}, ...]}` as claimed. -/
theorem presence_payload_key_counterexample :
    (joinNote stateEmpty sessB "n1").2 =
      [(["sockB"], .presenceUpdate [⟨"uB", "Bob", "b@example.com"⟩])] ∧
    (presenceUserPairs ⟨"uB", "Bob", "b@example.com"⟩).map Prod.fst =
      ["odId", "name", "email"] ∧
    "userId" ∉ (presenceUserPairs ⟨"uB", "Bob", "b@example.com"⟩).map Prod.fst :=
  ⟨rfl, rfl, by decide⟩

/-- C5 amended: every `presence-update` broadcast carries the full
membership snapshot of the room at emission time — recipients are
exactly the member sockets and the `users` list has exactly one element
per member, the member's stored entry (for the joiner: their userId,
name and email) — but each element is serialized under the keys
`odId`, `name`, `email`, the `odId` field holding the member's userId. -/
theorem presence_update_full_snapshot (σ : ServerState) (s : Session)
    (noteId : String) (note : NoteRec) (hnote : σ.notes noteId = some note) :
    (∃ room,
      mapGet (joinNote σ s noteId).1.roomPresence noteId = some room ∧
      (joinNote σ s noteId).2 =
        [(room.map Prod.fst, .presenceUpdate (room.map Prod.snd))] ∧
      (room.map Prod.snd).length = room.length ∧
      mapGet room s.socketId = some ⟨s.user.userId, s.user.name, s.user.email⟩) ∧
    (∀ recips users,
      (recips, Payload.presenceUpdate users) ∈ (handleLeaveNote σ s noteId).2 →
      ∃ room, mapGet (handleLeaveNote σ s noteId).1.roomPresence noteId = some room ∧
        recips = room.map Prod.fst ∧ users = room.map Prod.snd ∧
        users.length = room.length) ∧
    (∀ u : PresenceUser,
      (presenceUserPairs u).map Prod.fst = ["odId", "name", "email"]) := by
  refine ⟨?_, ?_, fun u => rfl⟩
  · refine ⟨mapSet ((mapGet σ.roomPresence noteId).getD []) s.socketId
      ⟨s.user.userId, s.user.name, s.user.email⟩, ?_, ?_, ?_, ?_⟩
    · simp [joinNote, hnote, mapGet_mapSet]
    · simp [joinNote, hnote]
    · simp
    · simp [mapGet_mapSet]
  · intro recips users hmem
    cases hg : mapGet σ.roomPresence noteId with
    | none => simp [handleLeaveNote, hg] at hmem
    | some room0 =>
      by_cases hlen : (mapDelete room0 s.socketId).length = 0
      · simp [handleLeaveNote, hg, hlen] at hmem
      · simp [handleLeaveNote, hg, hlen] at hmem
        obtain ⟨hr, hu⟩ := hmem
        refine ⟨mapDelete room0 s.socketId, ?_, hr, hu, by simp [hu]⟩
        simp [handleLeaveNote, hg, hlen, mapGet_mapSet]

/-- Witness for amended C5: instantiated at B joining (and leaving)
`n1` from the empty registry. -/
theorem presence_update_full_snapshot_witness :
    (∃ room,
      mapGet (joinNote stateEmpty sessB "n1").1.roomPresence "n1" = some room ∧
      (joinNote stateEmpty sessB "n1").2 =
        [(room.map Prod.fst, .presenceUpdate (room.map Prod.snd))] ∧
      (room.map Prod.snd).length = room.length ∧
      mapGet room sessB.socketId =
        some ⟨sessB.user.userId, sessB.user.name, sessB.user.email⟩) ∧
    (∀ recips users,
      (recips, Payload.presenceUpdate users) ∈ (handleLeaveNote stateEmpty sessB "n1").2 →
      ∃ room,
        mapGet (handleLeaveNote stateEmpty sessB "n1").1.roomPresence "n1" = some room ∧
        recips = room.map Prod.fst ∧ users = room.map Prod.snd ∧
        users.length = room.length) ∧
    (∀ u : PresenceUser,
      (presenceUserPairs u).map Prod.fst = ["odId", "name", "email"]) :=
  presence_update_full_snapshot stateEmpty sessB "n1" noteN1 rfl

/-- C7 counterexample: A is not a member of `n1`'s room (B is its only
member), yet A's `leave-note` is not silent: `handleLeaveNote` falls
into the broadcast branch and re-sends the (unchanged) presence
snapshot to B — the claim's "no presence-update ... is emitted to any
session" is false. -/
theorem leave_nonmember_counterexample :
    (handleLeaveNote stateB sessA "n1").2 =
      [(["sockB"], .presenceUpdate [presB])] ∧
    (handleLeaveNote stateB sessA "n1").2 ≠ [] := by
  refine ⟨rfl, ?_⟩
  intro h
  rw [show (handleLeaveNote stateB sessA "n1").2 =
        [(["sockB"], .presenceUpdate [presB])] from rfl] at h
  cases h

/-- C7 amended: a `leave-note` from a session that is not a member of
the room leaves the registry (and the whole state) unchanged and emits
no error; if the room does not exist, nothing at all is emitted, but if
the room exists with members, a redundant `presence-update` carrying
the unchanged snapshot is broadcast to its members. -/
theorem leave_not_member (σ : ServerState) (s : Session) (noteId : String)
    (hnm : mapHas ((mapGet σ.roomPresence noteId).getD []) s.socketId = false)
    (hne : ∀ r, mapGet σ.roomPresence noteId = some r → r ≠ []) :
    (handleLeaveNote σ s noteId).1 = σ ∧
    (∀ recips msg, (recips, Payload.errorMsg msg) ∉ (handleLeaveNote σ s noteId).2) ∧
    (mapGet σ.roomPresence noteId = none → (handleLeaveNote σ s noteId).2 = []) ∧
    (∀ r, mapGet σ.roomPresence noteId = some r →
      (handleLeaveNote σ s noteId).2 =
        [(r.map Prod.fst, .presenceUpdate (r.map Prod.snd))]) := by
  cases hg : mapGet σ.roomPresence noteId with
  | none =>
    refine ⟨by simp [handleLeaveNote, hg], ?_, ?_, ?_⟩
    · intro recips msg
      simp [handleLeaveNote, hg]
    · intro
      simp [handleLeaveNote, hg]
    · intro r hr
      cases hr
  | some room0 =>
    have hget : mapGet room0 s.socketId = none := by
      rw [hg] at hnm
      simp [mapHas] at hnm
      cases h : mapGet room0 s.socketId with
      | none => rfl
      | some v => rw [h] at hnm; simp at hnm
    have hdel : mapDelete room0 s.socketId = room0 := mapDelete_of_not_has hget
    have hne0 : room0 ≠ [] := hne room0 hg
    have hlen : ¬ (mapDelete room0 s.socketId).length = 0 := by
      rw [hdel]
      simpa using hne0
    refine ⟨?_, ?_, ?_, ?_⟩
    · simp only [handleLeaveNote, hg, hlen, if_neg, not_false_iff]
      rw [hdel, mapSet_of_get_eq hg]
    · intro recips msg
      simp [handleLeaveNote, hg, hlen]
    · intro hnone
      cases hnone
    · intro r hr
      injection hr with hr
      subst hr
      simp [handleLeaveNote, hg, hlen, hdel, hne0]

/-- Witness for amended C7: A (not a member) leaves `n1` whose room
holds only B; the state is unchanged, no error is emitted, and B
receives the redundant snapshot. -/
theorem leave_not_member_witness :
    (handleLeaveNote stateB sessA "n1").1 = stateB ∧
    (∀ recips msg, (recips, Payload.errorMsg msg) ∉ (handleLeaveNote stateB sessA "n1").2) ∧
    (mapGet stateB.roomPresence "n1" = none → (handleLeaveNote stateB sessA "n1").2 = []) ∧
    (∀ r, mapGet stateB.roomPresence "n1" = some r →
      (handleLeaveNote stateB sessA "n1").2 =
        [(r.map Prod.fst, .presenceUpdate (r.map Prod.snd))]) :=
  leave_not_member stateB sessA "n1" (by decide)
    (by
      intro r hr
      rw [show mapGet stateB.roomPresence "n1" = some [("sockB", presB)] from rfl] at hr
      injection hr with hr
      subst hr
      simp)

/-- C10: presence entries are keyed by socket id, not user id: two
distinct sessions of the same user both joining a fresh room leave two
entries in the room, and the resulting `presence-update` snapshot lists
that user's entry twice. -/
theorem presence_keyed_by_socket (σ : ServerState) (s1 s2 : Session)
    (noteId : String) (note : NoteRec)
    (hnote : σ.notes noteId = some note)
    (hroom : mapGet σ.roomPresence noteId = none)
    (hsock : s1.socketId ≠ s2.socketId)
    (huser : s1.user = s2.user) :
    mapGet (joinNote (joinNote σ s1 noteId).1 s2 noteId).1.roomPresence noteId =
      some [(s1.socketId, ⟨s1.user.userId, s1.user.name, s1.user.email⟩),
            (s2.socketId, ⟨s1.user.userId, s1.user.name, s1.user.email⟩)] ∧
    (joinNote (joinNote σ s1 noteId).1 s2 noteId).2 =
      [([s1.socketId, s2.socketId],
        .presenceUpdate [⟨s1.user.userId, s1.user.name, s1.user.email⟩,
                         ⟨s1.user.userId, s1.user.name, s1.user.email⟩])] := by
  simp [joinNote, hnote, hroom, mapGet_mapSet, mapSet, hsock, ← huser]

/-- A second connection of user A. -/
def sessA2 : Session := ⟨"sockA2", userA⟩

/-- Witness for C10: A joins `n1` from two sockets; the room has two
entries and the snapshot lists A twice. -/
theorem presence_keyed_by_socket_witness :
    mapGet (joinNote (joinNote stateEmpty sessA "n1").1 sessA2 "n1").1.roomPresence "n1" =
      some [("sockA", ⟨"uA", "Alice", "a@example.com"⟩),
            ("sockA2", ⟨"uA", "Alice", "a@example.com"⟩)] ∧
    (joinNote (joinNote stateEmpty sessA "n1").1 sessA2 "n1").2 =
      [(["sockA", "sockA2"],
        .presenceUpdate [⟨"uA", "Alice", "a@example.com"⟩,
                         ⟨"uA", "Alice", "a@example.com"⟩])] := by
  have h := presence_keyed_by_socket stateEmpty sessA sessA2 "n1" noteN1 rfl rfl
    (by decide) rfl
  simpa [sessA, sessA2, userA] using h

/-! ### The registry invariants (C2, C3) -/

/-- C2's invariant: every room stored in the registry has at least one
member (a key is present iff its member map is non-empty). -/
def NoEmptyRooms (σ : ServerState) : Prop := ∀ p ∈ σ.roomPresence, p.2 ≠ []

theorem noEmptyRooms_joinNote (σ : ServerState) (s : Session) (noteId : String)
    (h : NoEmptyRooms σ) : NoEmptyRooms (joinNote σ s noteId).1 := by
  cases hg : σ.notes noteId with
  | none => simpa [joinNote, hg] using h
  | some note =>
    intro p hp
    simp only [joinNote, hg] at hp
    rcases mem_mapSet hp with h' | h'
    · exact h p h'
    · rw [h']
      exact mapSet_ne_nil _ _ _

theorem noEmptyRooms_leave (σ : ServerState) (s : Session) (noteId : String)
    (h : NoEmptyRooms σ) : NoEmptyRooms (handleLeaveNote σ s noteId).1 := by
  cases hg : mapGet σ.roomPresence noteId with
  | none => simpa [handleLeaveNote, hg] using h
  | some room0 =>
    by_cases hlen : (mapDelete room0 s.socketId).length = 0
    · intro p hp
      simp [handleLeaveNote, hg, hlen] at hp
      exact h p (mem_mapDelete hp)
    · intro p hp
      simp [handleLeaveNote, hg, hlen] at hp
      rcases mem_mapSet hp with h' | h'
      · exact h p h'
      · rw [h']
        intro hnil
        exact hlen (by rw [show ((noteId, mapDelete room0 s.socketId) :
          String × List (String × PresenceUser)).2 = mapDelete room0 s.socketId
          from rfl] at hnil; simp [hnil])

/-- The registry is untouched by `note-update` in every branch. -/
theorem noteUpdate_roomPresence (σ : ServerState) (s : Session)
    (noteId content : String) (title : Option String) (persistOk : Bool) :
    (noteUpdate σ s noteId content title persistOk).1.roomPresence =
      σ.roomPresence := by
  cases hg : σ.notes noteId with
  | none => simp [noteUpdate, hg]
  | some note =>
    by_cases hown : note.ownerId ≠ s.user.userId
    · simp [noteUpdate, hg, hown]
    · by_cases hp : persistOk <;> simp [noteUpdate, hg, hown, hp]

/-- The state component of `disconnect` is the plain fold of
`handleLeaveNote` states over the rooms holding the socket. -/
theorem disconnect_state (σ : ServerState) (s : Session) :
    (disconnect σ s).1 =
      ((σ.roomPresence.filter (fun p => mapHas p.2 s.socketId)).map Prod.fst).foldl
        (fun σ' noteId => (handleLeaveNote σ' s noteId).1) σ := by
  have hfold : ∀ (L : List String) (σ0 : ServerState) (acc : List Emit),
      (L.foldl (fun a noteId =>
        let r := handleLeaveNote a.1 s noteId
        (r.1, a.2 ++ r.2)) (σ0, acc)).1 =
      L.foldl (fun σ' noteId => (handleLeaveNote σ' s noteId).1) σ0 := by
    intro L
    induction L with
    | nil => intro σ0 acc; rfl
    | cons k L ih =>
      intro σ0 acc
      simp only [List.foldl_cons]
      exact ih _ _
  simp only [disconnect]
  exact hfold _ σ []

theorem noEmptyRooms_disconnect (σ : ServerState) (s : Session)
    (h : NoEmptyRooms σ) : NoEmptyRooms (disconnect σ s).1 := by
  rw [disconnect_state]
  generalize (σ.roomPresence.filter (fun p => mapHas p.2 s.socketId)).map Prod.fst = L
  induction L generalizing σ with
  | nil => exact h
  | cons k L ih =>
    simp only [List.foldl_cons]
    exact ih _ (noEmptyRooms_leave _ _ _ h)

/-- C2: in every state reachable by any sequence of events from a state
with no empty rooms, a room key is present in the registry iff its
member map is non-empty; an empty room is removed inside the very event
that emptied it, so the invariant holds after every single event. -/
theorem registry_no_empty_rooms (σ : ServerState) (es : List Event)
    (h : NoEmptyRooms σ) :
    NoEmptyRooms (run σ es) ∧
    ∀ noteId, mapHas (run σ es).roomPresence noteId = true ↔
      ∃ r, mapGet (run σ es).roomPresence noteId = some r ∧ r ≠ [] := by
  have main : NoEmptyRooms (run σ es) := by
    induction es generalizing σ with
    | nil => exact h
    | cons e es ih =>
      apply ih
      cases e with
      | join s noteId => exact noEmptyRooms_joinNote _ _ _ h
      | leave s noteId => exact noEmptyRooms_leave _ _ _ h
      | update s noteId content title persistOk =>
        intro p hp
        simp only [step] at hp
        exact h p (by rwa [noteUpdate_roomPresence] at hp)
      | discon s => exact noEmptyRooms_disconnect _ _ h
  refine ⟨main, fun noteId => ⟨?_, ?_⟩⟩
  · intro hhas
    cases hg : mapGet (run σ es).roomPresence noteId with
    | none => simp [mapHas, hg] at hhas
    | some r => exact ⟨r, rfl, main (noteId, r) (mapGet_mem hg)⟩
  · rintro ⟨r, hr, -⟩
    simp [mapHas, hr]

/-- Witness for C2: from the empty registry, after B joins `n1`, A
joins `n1`, and B disconnects, no room in the registry is empty and
presence-in-registry coincides with non-emptiness. -/
theorem registry_no_empty_rooms_witness :
    NoEmptyRooms (run stateEmpty
      [.join sessB "n1", .join sessA "n1", .discon sessB]) ∧
    ∀ noteId, mapHas (run stateEmpty
        [.join sessB "n1", .join sessA "n1", .discon sessB]).roomPresence noteId = true ↔
      ∃ r, mapGet (run stateEmpty
        [.join sessB "n1", .join sessA "n1", .discon sessB]).roomPresence noteId = some r ∧
        r ≠ [] :=
  registry_no_empty_rooms stateEmpty
    [.join sessB "n1", .join sessA "n1", .discon sessB]
    (by intro p hp; simp [stateEmpty] at hp)

/-- Session `sid`'s membership in room `noteId`, exactly as the code
stores it: an entry keyed by the socket id in the room's member map. -/
def memberHasB (σ : ServerState) (noteId sid : String) : Bool :=
  mapHas ((mapGet σ.roomPresence noteId).getD []) sid

/-- Well-formedness every state built out of JS `Map`s has: a `Map`
never holds two bindings of one key, so the registry's keys and each
room's keys are duplicate-free. -/
def WFRegistry (σ : ServerState) : Prop :=
  (σ.roomPresence.map Prod.fst).Nodup ∧
  ∀ p ∈ σ.roomPresence, (p.2.map Prod.fst).Nodup

theorem wfRegistry_joinNote (σ : ServerState) (s : Session) (noteId : String)
    (h : WFRegistry σ) : WFRegistry (joinNote σ s noteId).1 := by
  cases hg : σ.notes noteId with
  | none => simpa [joinNote, hg] using h
  | some note =>
    have hroom0 : (((mapGet σ.roomPresence noteId).getD []).map Prod.fst).Nodup := by
      cases hg2 : mapGet σ.roomPresence noteId with
      | none => simp
      | some r => simpa using h.2 (noteId, r) (mapGet_mem hg2)
    constructor
    · simp only [joinNote, hg]
      exact nodup_keys_mapSet _ _ h.1
    · intro p hp
      simp only [joinNote, hg] at hp
      rcases mem_mapSet hp with h' | h'
      · exact h.2 p h'
      · rw [h']
        exact nodup_keys_mapSet _ _ hroom0

theorem wfRegistry_leave (σ : ServerState) (s : Session) (noteId : String)
    (h : WFRegistry σ) : WFRegistry (handleLeaveNote σ s noteId).1 := by
  cases hg : mapGet σ.roomPresence noteId with
  | none => simpa [handleLeaveNote, hg] using h
  | some room0 =>
    have hroom0 : (room0.map Prod.fst).Nodup := by
      simpa using h.2 (noteId, room0) (mapGet_mem hg)
    by_cases hlen : (mapDelete room0 s.socketId).length = 0
    · constructor
      · simp only [handleLeaveNote, hg]
        rw [if_pos hlen]
        exact nodup_keys_mapDelete _ h.1
      · intro p hp
        simp only [handleLeaveNote, hg] at hp
        rw [if_pos hlen] at hp
        exact h.2 p (mem_mapDelete hp)
    · constructor
      · simp only [handleLeaveNote, hg]
        rw [if_neg hlen]
        exact nodup_keys_mapSet _ _ h.1
      · intro p hp
        simp only [handleLeaveNote, hg] at hp
        rw [if_neg hlen] at hp
        rcases mem_mapSet hp with h' | h'
        · exact h.2 p h'
        · rw [h']
          exact nodup_keys_mapDelete _ hroom0

theorem wfRegistry_noteUpdate (σ : ServerState) (s : Session)
    (noteId content : String) (title : Option String) (persistOk : Bool)
    (h : WFRegistry σ) :
    WFRegistry (noteUpdate σ s noteId content title persistOk).1 := by
  constructor
  · rw [noteUpdate_roomPresence]; exact h.1
  · intro p hp
    rw [noteUpdate_roomPresence] at hp
    exact h.2 p hp

theorem wfRegistry_leaveFold (s : Session) (L : List String) :
    ∀ σ : ServerState, WFRegistry σ →
      WFRegistry (L.foldl (fun σ' noteId => (handleLeaveNote σ' s noteId).1) σ) := by
  induction L with
  | nil => intro σ h; exact h
  | cons k L ih =>
    intro σ h
    simp only [List.foldl_cons]
    exact ih _ (wfRegistry_leave _ _ _ h)

theorem wfRegistry_disconnect (σ : ServerState) (s : Session)
    (h : WFRegistry σ) : WFRegistry (disconnect σ s).1 := by
  rw [disconnect_state]
  exact wfRegistry_leaveFold s _ σ h

theorem wfRegistry_step (σ : ServerState) (e : Event) (h : WFRegistry σ) :
    WFRegistry (step σ e).1 := by
  cases e with
  | join s noteId => exact wfRegistry_joinNote _ _ _ h
  | leave s noteId => exact wfRegistry_leave _ _ _ h
  | update s noteId content title persistOk =>
    exact wfRegistry_noteUpdate _ _ _ _ _ _ h
  | discon s => exact wfRegistry_disconnect _ _ h

theorem joinNote_none_state (σ : ServerState) (s : Session) (noteId : String)
    (hg : σ.notes noteId = none) : (joinNote σ s noteId).1 = σ := by
  simp [joinNote, hg]

theorem memberHasB_joinNote (σ : ServerState) (s : Session) (noteId : String)
    (note : NoteRec) (hg : σ.notes noteId = some note) (nid sid : String) :
    memberHasB (joinNote σ s noteId).1 nid sid = true ↔
      ((nid = noteId ∧ sid = s.socketId) ∨ memberHasB σ nid sid = true) := by
  by_cases hnid : nid = noteId
  · subst hnid
    simp [memberHasB, joinNote, hg, mapGet_mapSet, mapHas_mapSet]
  · simp [memberHasB, joinNote, hg, mapGet_mapSet, hnid]

theorem memberHasB_leave (σ : ServerState) (s : Session) (noteId : String)
    (hwf : WFRegistry σ) (nid sid : String) :
    memberHasB (handleLeaveNote σ s noteId).1 nid sid = true ↔
      (memberHasB σ nid sid = true ∧ ¬(nid = noteId ∧ sid = s.socketId)) := by
  cases hg : mapGet σ.roomPresence noteId with
  | none =>
    have hstate : (handleLeaveNote σ s noteId).1 = σ := by
      simp [handleLeaveNote, hg]
    rw [hstate]
    by_cases hnid : nid = noteId
    · subst hnid
      simp [memberHasB, hg, mapHas, mapGet]
    · simp [hnid]
  | some room0 =>
    have hroom0 : (room0.map Prod.fst).Nodup := by
      simpa using hwf.2 (noteId, room0) (mapGet_mem hg)
    by_cases hlen : (mapDelete room0 s.socketId).length = 0
    · have hstate : (handleLeaveNote σ s noteId).1 =
          { σ with roomPresence := mapDelete σ.roomPresence noteId } := by
        simp only [handleLeaveNote, hg]
        rw [if_pos hlen]
      rw [hstate]
      by_cases hnid : nid = noteId
      · subst hnid
        have hnil : mapDelete room0 s.socketId = [] := List.length_eq_zero.mp hlen
        have hL : mapGet (mapDelete σ.roomPresence nid) nid = none :=
          mapGet_mapDelete_self hwf.1
        rcases mapDelete_eq_nil hnil with h0 | ⟨v, h0⟩
        · subst h0
          simp [memberHasB, hL, hg, mapHas, mapGet]
        · subst h0
          by_cases hsid : s.socketId = sid
          · simp [memberHasB, hL, hg, mapHas, mapGet, hsid]
          · simp [memberHasB, hL, hg, mapHas, mapGet, hsid]
      · simp [memberHasB, mapGet_mapDelete_ne _ hnid, hnid]
    · have hstate : (handleLeaveNote σ s noteId).1 =
          { σ with roomPresence :=
              mapSet σ.roomPresence noteId (mapDelete room0 s.socketId) } := by
        simp only [handleLeaveNote, hg]
        rw [if_neg hlen]
      rw [hstate]
      by_cases hnid : nid = noteId
      · subst hnid
        by_cases hsid : sid = s.socketId
        · subst hsid
          have hnone : mapGet (mapDelete room0 s.socketId) s.socketId = none :=
            mapGet_mapDelete_self hroom0
          simp [memberHasB, mapGet_mapSet, mapHas, hnone]
        · have hne := @mapGet_mapDelete_ne _ room0 s.socketId sid hsid
          simp [memberHasB, mapGet_mapSet, mapHas, hne, hg, hsid]
      · simp [memberHasB, mapGet_mapSet, hnid]

theorem memberHasB_noteUpdate (σ : ServerState) (s : Session)
    (noteId content : String) (title : Option String) (persistOk : Bool)
    (nid sid : String) :
    memberHasB (noteUpdate σ s noteId content title persistOk).1 nid sid =
      memberHasB σ nid sid := by
  unfold memberHasB
  rw [noteUpdate_roomPresence]

theorem memberHasB_leaveFold (s : Session) (L : List String) :
    ∀ σ : ServerState, WFRegistry σ → ∀ nid sid : String,
      (memberHasB (L.foldl (fun σ' noteId => (handleLeaveNote σ' s noteId).1) σ)
          nid sid = true ↔
        (memberHasB σ nid sid = true ∧ ¬(sid = s.socketId ∧ nid ∈ L))) := by
  induction L with
  | nil => intro σ hwf nid sid; simp
  | cons k L ih =>
    intro σ hwf nid sid
    simp only [List.foldl_cons]
    rw [ih _ (wfRegistry_leave _ _ _ hwf), memberHasB_leave _ _ _ hwf]
    simp only [List.mem_cons]
    tauto

theorem memberHasB_disconnect (σ : ServerState) (s : Session)
    (hwf : WFRegistry σ) (nid sid : String) :
    memberHasB (disconnect σ s).1 nid sid = true ↔
      (memberHasB σ nid sid = true ∧ sid ≠ s.socketId) := by
  rw [disconnect_state, memberHasB_leaveFold s _ σ hwf]
  constructor
  · rintro ⟨hm, hnot⟩
    refine ⟨hm, fun hsid => hnot ⟨hsid, ?_⟩⟩
    subst hsid
    unfold memberHasB at hm
    cases hgm : mapGet σ.roomPresence nid with
    | none => rw [hgm] at hm; simp [mapHas, mapGet] at hm
    | some room =>
      rw [hgm] at hm
      simp only [Option.getD_some] at hm
      exact List.mem_map.mpr
        ⟨(nid, room), List.mem_filter.mpr ⟨mapGet_mem hgm, by simpa using hm⟩, rfl⟩
  · rintro ⟨hm, hsid⟩
    exact ⟨hm, fun hand => hsid hand.1⟩

/-- The specification-side view of C3: the rooms a session (identified
by its socket id, which is how the code keys presence) has successfully
joined and not subsequently left, folded over the event trace.  A join
counts only when the document exists (otherwise the handler errors out
before touching the registry); a leave removes the room; a disconnect
clears everything of that session; updates never touch membership. -/
def joinedStep (sid : String) (σ : ServerState) (acc : List String) :
    Event → List String
  | .join s noteId =>
      if s.socketId = sid ∧ (σ.notes noteId).isSome then noteId :: acc else acc
  | .leave s noteId =>
      if s.socketId = sid then acc.filter (fun r => decide (r ≠ noteId)) else acc
  | .update _ _ _ _ _ => acc
  | .discon s => if s.socketId = sid then [] else acc

/-- `joinedStep` folded over a trace, threading the server state. -/
def joinedRooms (sid : String) (σ : ServerState) (acc : List String) :
    List Event → List String
  | [] => acc
  | e :: es => joinedRooms sid (step σ e).1 (joinedStep sid σ acc e) es

theorem memberHasB_run_spec (es : List Event) :
    ∀ (σ : ServerState) (sid : String) (acc : List String), WFRegistry σ →
      (∀ nid, memberHasB σ nid sid = true ↔ nid ∈ acc) →
      ∀ nid, memberHasB (run σ es) nid sid = true ↔
        nid ∈ joinedRooms sid σ acc es := by
  induction es with
  | nil => intro σ sid acc _ hagree nid; exact hagree nid
  | cons e es ih =>
    intro σ sid acc hwf hagree nid
    simp only [run, joinedRooms]
    apply ih _ sid _ (wfRegistry_step σ e hwf)
    intro nid'
    cases e with
    | join s noteId =>
      cases hg : σ.notes noteId with
      | none =>
        rw [show (step σ (.join s noteId)).1 = (joinNote σ s noteId).1 from rfl,
          joinNote_none_state σ s noteId hg]
        simpa [joinedStep, hg] using hagree nid'
      | some note =>
        rw [show (step σ (.join s noteId)).1 = (joinNote σ s noteId).1 from rfl,
          memberHasB_joinNote σ s noteId note hg]
        simp only [joinedStep, hg, Option.isSome_some, and_true]
        by_cases hsid : s.socketId = sid
        · simp [hsid, List.mem_cons, hagree nid']
        · have hsid2 : ¬ sid = s.socketId := fun hh => hsid hh.symm
          simp [hsid, hsid2, hagree nid']
    | leave s noteId =>
      rw [show (step σ (.leave s noteId)).1 = (handleLeaveNote σ s noteId).1 from rfl,
        memberHasB_leave σ s noteId hwf]
      simp only [joinedStep]
      by_cases hsid : s.socketId = sid
      · simp [hsid, List.mem_filter, hagree nid']
      · have hsid2 : ¬ sid = s.socketId := fun hh => hsid hh.symm
        simp [hsid, hsid2, hagree nid']
    | update s noteId content title persistOk =>
      rw [show (step σ (.update s noteId content title persistOk)).1 =
        (noteUpdate σ s noteId content title persistOk).1 from rfl,
        memberHasB_noteUpdate]
      simp only [joinedStep]
      exact hagree nid'
    | discon s =>
      rw [show (step σ (.discon s)).1 = (disconnect σ s).1 from rfl,
        memberHasB_disconnect σ s hwf]
      simp only [joinedStep]
      by_cases hsid : s.socketId = sid
      · simp [hsid]
      · have hsid2 : sid ≠ s.socketId := fun hh => hsid hh.symm
        simp [hsid, hsid2, hagree nid']

theorem wfRegistry_run (es : List Event) :
    ∀ σ : ServerState, WFRegistry σ → WFRegistry (run σ es) := by
  induction es with
  | nil => intro σ h; exact h
  | cons e es ih => intro σ h; exact ih _ (wfRegistry_step σ e h)

/-- C3: starting from any well-formed state whose registry agrees with
a bookkeeping list `acc` of the session's rooms (in particular the
initial empty registry with `acc = []`), after any event sequence the
set of rooms holding an entry keyed by the session equals exactly the
rooms it successfully joined and did not subsequently leave (leaves and
disconnects deregister, a join against a missing document registers
nothing); and a disconnect — which runs the same `handleLeaveNote`
removal logic room by room — leaves the session a member of no room at
all. -/
theorem session_rooms_eq_joined_not_left (es : List Event) (σ : ServerState)
    (sid : String) (acc : List String) (hwf : WFRegistry σ)
    (hagree : ∀ nid, memberHasB σ nid sid = true ↔ nid ∈ acc) :
    (∀ nid, memberHasB (run σ es) nid sid = true ↔
      nid ∈ joinedRooms sid σ acc es) ∧
    (∀ s : Session, ∀ nid,
      ¬ memberHasB (disconnect (run σ es) s).1 nid s.socketId = true) := by
  refine ⟨memberHasB_run_spec es σ sid acc hwf hagree, ?_⟩
  intro s nid h
  have hwf' : WFRegistry (run σ es) := wfRegistry_run es σ hwf
  rcases (memberHasB_disconnect _ s hwf' nid s.socketId).mp h with ⟨-, hne⟩
  exact hne rfl

/-- Witness for C3: B joins `n1`, fails to join the nonexistent `n2`,
then leaves `n1`; the registry tracks exactly that bookkeeping, and any
disconnect empties its session's membership. -/
theorem session_rooms_eq_joined_not_left_witness :
    (∀ nid, memberHasB
        (run stateEmpty [.join sessB "n1", .join sessB "n2", .leave sessB "n1"])
        nid "sockB" = true ↔
      nid ∈ joinedRooms "sockB" stateEmpty []
        [.join sessB "n1", .join sessB "n2", .leave sessB "n1"]) ∧
    (∀ s : Session, ∀ nid,
      ¬ memberHasB (disconnect
          (run stateEmpty [.join sessB "n1", .join sessB "n2", .leave sessB "n1"])
          s).1 nid s.socketId = true) :=
  session_rooms_eq_joined_not_left _ stateEmpty "sockB" []
    (by refine ⟨?_, ?_⟩ <;> simp [stateEmpty])
    (by intro nid; simp [memberHasB, stateEmpty, mapGet, mapHas])

end CollabNotes
